import Mathlib

/-!
Verification of the SVG tree serializer in `src/svg_tree.rs` (crate geo-svg).

The embedding mirrors the Rust source:
* `SvgTree` / `SvgTreeChildren` embed the `struct SvgTree` and
  `enum SvgTreeChildren` data model; `BTreeMap<String, String>` is embedded
  as its in-order entry list (`List (String × String)`), built by
  `btreeInsert` / `btreeOfList` which maintain the sorted-unique-keys
  invariant of a B-tree map; `Option<ViewBox>` is embedded as the view box's
  string form (`Option String`), since `ViewBox` comes from another module, a black box
  whose only role in this file is to be converted to a string.
* `displayTree` / `displayChildren` embed `impl Display` (compact mode);
  `debugTree` / `debugChildren` embed `impl Debug` (indented mode).
* `rustLines` models Rust `str::lines` (split at `\n`, a `\r` directly
  before a split `\n` is stripped, a final line terminator yields no extra
  empty line); `isBlank` models `line.trim().is_empty()`, with
  `rustIsWhitespace` enumerating the Unicode `White_Space` code points that
  Rust `char::is_whitespace` recognises.
-/

namespace GeoSvg

/- `enum SvgTreeChildren` and `struct SvgTree` from `src/svg_tree.rs`. -/
mutual

inductive SvgTree : Type where
  | mk (tag : String) (content : SvgTreeChildren)
      (attrs : List (String × String))
      (id : Option String) (viewbox : Option String) : SvgTree

inductive SvgTreeChildren : Type where
  | Content (s : String) : SvgTreeChildren
  | Children (children : List SvgTree) : SvgTreeChildren

end

def SvgTree.tag : SvgTree → String
  | .mk t _ _ _ _ => t

def SvgTree.content : SvgTree → SvgTreeChildren
  | .mk _ c _ _ _ => c

def SvgTree.attrs : SvgTree → List (String × String)
  | .mk _ _ a _ _ => a

def SvgTree.id : SvgTree → Option String
  | .mk _ _ _ i _ => i

def SvgTree.viewbox : SvgTree → Option String
  | .mk _ _ _ _ v => v

/-- Lexicographic strict order on character lists, comparing codepoints.
For valid UTF-8 this agrees with Rust `String`'s byte-lexicographic `Ord`,
the order of `BTreeMap<String, _>` keys. -/
def charListLt : List Char → List Char → Bool
  | [], [] => false
  | [], _ :: _ => true
  | _ :: _, [] => false
  | a :: as, b :: bs =>
    if a < b then true
    else if b < a then false
    else charListLt as bs

/-- Lexicographic strict order on strings (Rust `String`'s `Ord`). -/
def strLt (s t : String) : Bool :=
  charListLt s.data t.data

/-- One insertion into a `BTreeMap` viewed as its sorted entry list:
keeps keys strictly increasing, a duplicate key overwrites the old value. -/
def btreeInsert (k v : String) : List (String × String) → List (String × String)
  | [] => [(k, v)]
  | (k₀, v₀) :: rest =>
    if strLt k k₀ then (k, v) :: (k₀, v₀) :: rest
    else if k = k₀ then (k, v) :: rest
    else (k₀, v₀) :: btreeInsert k v rest

/-- `BTreeMap::from_iter`: insert the pairs left to right. -/
def btreeOfList (l : List (String × String)) : List (String × String) :=
  l.foldl (fun m p => btreeInsert p.1 p.2 m) []

/-- `SvgTree::leaf` from `src/svg_tree.rs`. -/
def leaf (tag content : String) : SvgTree :=
  .mk tag (.Content content) [] none none

/-- The attrs of `SvgTree::root`: `BTreeMap::from_iter` over the
`xmlns` and `preserveAspectRatio` pairs, in that iteration order. -/
def rootAttrs : List (String × String) :=
  btreeOfList
    [("xmlns", "http://www.w3.org/2000/svg"),
     ("preserveAspectRatio", "xMidYMid meet")]

/-- `SvgTree::root` from `src/svg_tree.rs`. `ViewBox` lives outside the
source at hand, so the string form of `ViewBox::default()` is taken as a
parameter (the spec gives it as `"0 0 0 0"`). -/
def root (viewBoxDefault : String) : SvgTree :=
  .mk "svg" (.Children []) rootAttrs none (some viewBoxDefault)

/-- `SvgTree::add` from `src/svg_tree.rs`: push onto the child list when
`content` is the `Children` variant, otherwise return `self` unchanged. -/
def add : SvgTree → SvgTree → SvgTree
  | .mk tag (.Children cs) attrs i vb, child =>
    .mk tag (.Children (cs ++ [child])) attrs i vb
  | .mk tag (.Content s) attrs i vb, _ => .mk tag (.Content s) attrs i vb

/-- The attribute pairs in render order: the `attrs` entries chained with
the injected `("viewBox", vb)` pair when the view box is present
(`self.attrs.clone().into_iter().chain(vb)` in both `Display` and `Debug`). -/
def attrPairs (attrs : List (String × String)) (viewbox : Option String) :
    List (String × String) :=
  attrs ++ (viewbox.map (fun vb => ("viewBox", vb))).toList

/-- `format!("{key}=\"{value}\"")` for one attribute pair. -/
def quoteAttr (p : String × String) : String :=
  p.1 ++ "=\"" ++ p.2 ++ "\""

/-- `Iterator::reduce` with `|a, b| a + sep + b`, then `unwrap_or_default`. -/
def reduceSep (sep : String) : List String → String
  | [] => ""
  | x :: xs => xs.foldl (fun a b => a ++ sep ++ b) x

/-- The full attribute string of the opening tag, as computed identically in
`impl Display for SvgTree` and `impl Debug for SvgTree`: quote each pair of
`attrPairs`, join with single spaces, and put one space in front when nonempty. -/
def attrsString (attrs : List (String × String)) (viewbox : Option String) :
    String :=
  match (attrPairs attrs viewbox).map quoteAttr with
  | [] => ""
  | x :: xs => " " ++ xs.foldl (fun a b => a ++ " " ++ b) x

mutual

/-- `impl Display for SvgTree`: `"<{tag}{attrs}>{content}</{tag}>"`. -/
def displayTree : SvgTree → String
  | .mk tag content attrs _ viewbox =>
    "<" ++ tag ++ attrsString attrs viewbox ++ ">" ++
      displayChildren content ++ "</" ++ tag ++ ">"

/-- `impl Display for SvgTreeChildren`: the literal text, or the child
renderings reduced by plain concatenation (`unwrap_or_default` on empty). -/
def displayChildren : SvgTreeChildren → String
  | .Content s => s
  | .Children cs =>
    match displayList cs with
    | [] => ""
    | x :: xs => xs.foldl (fun a b => a ++ b) x

def displayList : List SvgTree → List String
  | [] => []
  | t :: ts => displayTree t :: displayList ts

end

/-- Split a character list at each newline; the segments do not contain the
terminators. Never returns `[]`: the segment after the last `\n` (possibly
empty) is always present. -/
def splitNl : List Char → List (List Char)
  | [] => [[]]
  | c :: cs =>
    if c = '\n' then [] :: splitNl cs
    else
      match splitNl cs with
      | [] => [[c]]
      | l :: ls => (c :: l) :: ls

/-- Strip one trailing carriage return, as Rust `lines` does on each line
that was terminated by a `\n`. -/
def stripCR (l : List Char) : List Char :=
  if l.getLast? = some '\r' then l.dropLast else l

/-- Rust `str::lines`: all segments but the last were `\n`-terminated, so a
trailing `\r` is stripped from them; the last segment is the tail after the
final `\n` and is dropped when empty (a final line terminator yields no
extra line). -/
def rustLines (s : String) : List String :=
  (splitNl s.data).dropLast.map (fun l => (stripCR l).asString) ++
    (if (splitNl s.data).getLastD [] = [] then []
     else [((splitNl s.data).getLastD []).asString])

/-- Rust `char::is_whitespace`: the Unicode `White_Space` property
(U+0009..U+000D, U+0020, U+0085, U+00A0, U+1680, U+2000..U+200A, U+2028,
U+2029, U+202F, U+205F, U+3000). -/
def rustIsWhitespace (c : Char) : Bool :=
  decide (c.toNat = 0x20 ∨ (0x09 ≤ c.toNat ∧ c.toNat ≤ 0x0D) ∨ c.toNat = 0x85 ∨
    c.toNat = 0xA0 ∨ c.toNat = 0x1680 ∨ (0x2000 ≤ c.toNat ∧ c.toNat ≤ 0x200A) ∨
    c.toNat = 0x2028 ∨ c.toNat = 0x2029 ∨ c.toNat = 0x202F ∨ c.toNat = 0x205F ∨
    c.toNat = 0x3000)

/-- `line.trim().is_empty()` from `impl Debug for SvgTree`: every character
of the line is Unicode whitespace. -/
def isBlank (l : String) : Bool :=
  l.data.all (fun c => rustIsWhitespace c)

/-- One line of the child block in `impl Debug for SvgTree`:
`(!line.trim().is_empty()).then(|| format!("  {line}")).unwrap_or_default()`. -/
def prefLine (line : String) : String :=
  if isBlank line then "" else "  " ++ line

/-- The `content` expression of `impl Debug for SvgTree`: split the child
block into lines, indent each non-blank line by two spaces (blank lines
become empty), rejoin with newlines, and append one final newline when the
block had any line at all. -/
def indentBody (s : String) : String :=
  match (rustLines s).map prefLine with
  | [] => ""
  | x :: xs => xs.foldl (fun a b => a ++ "\n" ++ b) x ++ "\n"

mutual

/-- `impl Debug for SvgTree`: same opening tag as `Display`, the body is the
`Debug` form of the content run through `indentBody`. -/
def debugTree : SvgTree → String
  | .mk tag content attrs _ viewbox =>
    "<" ++ tag ++ attrsString attrs viewbox ++ ">" ++
      indentBody (debugChildren content) ++ "</" ++ tag ++ ">"

/-- `impl Debug for SvgTreeChildren`: `"\n{content}\n"` for literal text;
for children, the child `Debug` forms joined by newlines and wrapped in a
leading and a trailing newline, or the empty string for no children. -/
def debugChildren : SvgTreeChildren → String
  | .Content s => "\n" ++ s ++ "\n"
  | .Children cs =>
    match debugList cs with
    | [] => ""
    | x :: xs => "\n" ++ xs.foldl (fun a b => a ++ "\n" ++ b) x ++ "\n"

def debugList : List SvgTree → List String
  | [] => []
  | t :: ts => debugTree t :: debugList ts

end

/-! ### Basic facts about the renderers -/

theorem displayList_eq_map (cs : List SvgTree) :
    displayList cs = cs.map displayTree := by
  induction cs with
  | nil => rfl
  | cons t ts ih => simp [displayList, ih]

theorem debugList_eq_map (cs : List SvgTree) :
    debugList cs = cs.map debugTree := by
  induction cs with
  | nil => rfl
  | cons t ts ih => simp [debugList, ih]

theorem displayTree_eq (n : SvgTree) :
    displayTree n =
      "<" ++ n.tag ++ attrsString n.attrs n.viewbox ++ ">" ++
        displayChildren n.content ++ "</" ++ n.tag ++ ">" := by
  cases n
  rfl

theorem debugTree_eq (n : SvgTree) :
    debugTree n =
      "<" ++ n.tag ++ attrsString n.attrs n.viewbox ++ ">" ++
        indentBody (debugChildren n.content) ++ "</" ++ n.tag ++ ">" := by
  cases n
  rfl

theorem displayChildren_children (cs : List SvgTree) :
    displayChildren (.Children cs) = String.join (cs.map displayTree) := by
  cases cs with
  | nil => rfl
  | cons t ts =>
    show (match displayList (t :: ts) with
      | [] => ""
      | x :: xs => xs.foldl (fun a b => a ++ b) x) = _
    rw [displayList_eq_map]
    simp only [List.map_cons]
    show _ = List.foldl (fun a b => a ++ b) "" (displayTree t :: ts.map displayTree)
    rw [List.foldl_cons, String.empty_append]

theorem debugChildren_children (c : SvgTree) (cs : List SvgTree) :
    debugChildren (.Children (c :: cs)) =
      "\n" ++ reduceSep "\n" ((c :: cs).map debugTree) ++ "\n" := by
  show (match debugList (c :: cs) with
    | [] => ""
    | x :: xs => "\n" ++ xs.foldl (fun a b => a ++ "\n" ++ b) x ++ "\n") = _
  rw [debugList_eq_map]
  simp only [List.map_cons]
  rfl

/-! ### Facts about `splitNl`, `rustLines` and `indentBody` -/

theorem splitNl_ne_nil (l : List Char) : splitNl l ≠ [] := by
  cases l with
  | nil => simp [splitNl]
  | cons c cs =>
    unfold splitNl
    split
    · simp
    · split <;> simp

theorem splitNl_cons_nl (cs : List Char) :
    splitNl ('\n' :: cs) = [] :: splitNl cs := by
  simp [splitNl]

theorem splitNl_cons_other {c : Char} (hc : c ≠ '\n') {cs : List Char}
    {l : List Char} {ls : List (List Char)} (h : splitNl cs = l :: ls) :
    splitNl (c :: cs) = (c :: l) :: ls := by
  unfold splitNl
  rw [if_neg hc, h]

theorem splitNl_append_nl (l : List Char) :
    splitNl (l ++ ['\n']) = splitNl l ++ [[]] := by
  induction l with
  | nil => simp [splitNl]
  | cons c cs ih =>
    by_cases hc : c = '\n'
    · subst hc
      rw [List.cons_append, splitNl_cons_nl, splitNl_cons_nl, ih, List.cons_append]
    · obtain ⟨l₀, ls₀, h₀⟩ : ∃ l₀ ls₀, splitNl cs = l₀ :: ls₀ := by
        cases h' : splitNl cs with
        | nil => exact absurd h' (splitNl_ne_nil cs)
        | cons a b => exact ⟨a, b, rfl⟩
      have h₁ : splitNl (cs ++ ['\n']) = l₀ :: (ls₀ ++ [[]]) := by
        rw [ih, h₀]
        rfl
      rw [List.cons_append, splitNl_cons_other hc h₁, splitNl_cons_other hc h₀,
        List.cons_append]

theorem splitNl_no_nl {l : List Char} (h : '\n' ∉ l) : splitNl l = [l] := by
  induction l with
  | nil => rfl
  | cons c cs ih =>
    have hc : c ≠ '\n' := fun hc => h (hc ▸ List.mem_cons_self c cs)
    have hcs : '\n' ∉ cs := fun hm => h (List.mem_cons_of_mem c hm)
    rw [splitNl_cons_other hc (ih hcs)]

theorem splitNl_getLast?_append {c : Char} (hc : c ≠ '\n') (l : List Char) :
    ∃ w, (splitNl (l ++ [c])).getLast? = some (w ++ [c]) := by
  induction l with
  | nil =>
    refine ⟨[], ?_⟩
    rw [List.nil_append, splitNl_no_nl (by simpa using hc.symm)]
    rfl
  | cons c₀ cs ih =>
    obtain ⟨w, hw⟩ := ih
    obtain ⟨l₀, ls₀, h₀⟩ : ∃ l₀ ls₀, splitNl (cs ++ [c]) = l₀ :: ls₀ := by
      cases h' : splitNl (cs ++ [c]) with
      | nil => exact absurd h' (splitNl_ne_nil _)
      | cons a b => exact ⟨a, b, rfl⟩
    by_cases hc₀ : c₀ = '\n'
    · subst hc₀
      refine ⟨w, ?_⟩
      rw [List.cons_append, splitNl_cons_nl, h₀, List.getLast?_cons_cons]
      rw [h₀] at hw
      exact hw
    · rw [List.cons_append, splitNl_cons_other hc₀ h₀]
      cases ls₀ with
      | nil =>
        refine ⟨c₀ :: w, ?_⟩
        rw [h₀] at hw
        simp only [List.getLast?_singleton] at hw ⊢
        simp [Option.some_inj.mp hw]
      | cons a b =>
        refine ⟨w, ?_⟩
        rw [h₀] at hw
        rw [List.getLast?_cons_cons] at hw ⊢
        exact hw

theorem data_cons_nl (s : String) : ("\n" ++ s).data = '\n' :: s.data := by
  rw [String.data_append]
  rfl

theorem data_concat_nl (s : String) : (s ++ "\n").data = s.data ++ ['\n'] := by
  rw [String.data_append]

theorem stripCR_of_ne {l : List Char} (h : l.getLast? ≠ some '\r') :
    stripCR l = l := by
  unfold stripCR
  rw [if_neg h]

theorem rustLines_cons_nl (s : String) :
    rustLines ("\n" ++ s) = "" :: rustLines s := by
  obtain ⟨p, ps, hP⟩ : ∃ p ps, splitNl s.data = p :: ps := by
    cases h' : splitNl s.data with
    | nil => exact absurd h' (splitNl_ne_nil _)
    | cons a b => exact ⟨a, b, rfl⟩
  unfold rustLines
  rw [data_cons_nl, splitNl_cons_nl, hP, List.getLastD_cons]
  show (([] : List Char) :: p :: ps).dropLast.map _ ++ _ = _
  rw [show (([] : List Char) :: p :: ps).dropLast = [] :: (p :: ps).dropLast from rfl]
  rw [List.map_cons, List.cons_append]
  rfl

theorem rustLines_single_line {s : String} (h1 : '\n' ∉ s.data)
    (h2 : s.data.getLast? ≠ some '\r') :
    rustLines (s ++ "\n") = [s] := by
  unfold rustLines
  rw [data_concat_nl, splitNl_append_nl, splitNl_no_nl h1]
  rw [List.getLastD_eq_getLast?, List.getLast?_concat, Option.getD_some]
  rw [List.dropLast_concat, if_pos rfl, List.map_singleton, stripCR_of_ne h2]
  rfl

theorem rustLines_concat_nl {s : String} {c : Char} (h : s.data.getLast? = some c)
    (h1 : c ≠ '\n') (h2 : c ≠ '\r') :
    rustLines (s ++ "\n") = rustLines s := by
  obtain ⟨l₀, hl₀⟩ := List.getLast?_eq_some_iff.mp h
  obtain ⟨w, hw⟩ : ∃ w, (splitNl s.data).getLast? = some (w ++ [c]) := by
    rw [hl₀]
    exact splitNl_getLast?_append h1 l₀
  have hPne : splitNl s.data ≠ [] := splitNl_ne_nil _
  have hlast : (splitNl s.data).getLast hPne = w ++ [c] := by
    rw [List.getLast?_eq_getLast _ hPne] at hw
    exact Option.some_inj.mp hw
  have hD : (splitNl s.data).getLastD [] = w ++ [c] := by
    rw [List.getLastD_eq_getLast?, hw, Option.getD_some]
  unfold rustLines
  rw [data_concat_nl, splitNl_append_nl]
  rw [List.getLastD_eq_getLast?, List.getLast?_concat, Option.getD_some]
  rw [List.dropLast_concat, if_pos rfl, List.append_nil, hD]
  rw [if_neg (by simp : ¬ w ++ [c] = [])]
  conv =>
    lhs
    rw [← List.dropLast_append_getLast hPne, hlast, List.map_append, List.map_singleton]
  congr 2
  rw [stripCR_of_ne (by rw [List.getLast?_concat]; simp [h2])]

theorem rustLines_ne_nil {s : String} {c : Char} (h : s.data.getLast? = some c)
    (h1 : c ≠ '\n') : rustLines s ≠ [] := by
  obtain ⟨l₀, hl₀⟩ := List.getLast?_eq_some_iff.mp h
  obtain ⟨w, hw⟩ : ∃ w, (splitNl s.data).getLast? = some (w ++ [c]) := by
    rw [hl₀]
    exact splitNl_getLast?_append h1 l₀
  have hD : (splitNl s.data).getLastD [] = w ++ [c] := by
    rw [List.getLastD_eq_getLast?, hw, Option.getD_some]
  unfold rustLines
  rw [hD, if_neg (by simp : ¬ w ++ [c] = [])]
  simp

theorem rustLines_concat_nl_ne_nil (c : String) : rustLines (c ++ "\n") ≠ [] := by
  unfold rustLines
  rw [data_concat_nl, splitNl_append_nl]
  rw [List.getLastD_eq_getLast?, List.getLast?_concat, Option.getD_some]
  rw [List.dropLast_concat, if_pos rfl, List.append_nil]
  simp [splitNl_ne_nil]

theorem prefLine_empty : prefLine "" = "" := rfl

theorem foldl_sep_shift (sep x y : String) (l : List String) :
    l.foldl (fun a b => a ++ sep ++ b) (x ++ y) =
      x ++ l.foldl (fun a b => a ++ sep ++ b) y := by
  induction l generalizing y with
  | nil => rfl
  | cons z zs ih =>
    rw [List.foldl_cons, List.foldl_cons,
      show (x ++ y) ++ sep ++ z = x ++ (y ++ sep ++ z) by
        simp [String.append_assoc],
      ih (y ++ sep ++ z)]

theorem indentBody_cons_nl {s : String} (h : rustLines s ≠ []) :
    indentBody ("\n" ++ s) =
      "\n" ++ reduceSep "\n" ((rustLines s).map prefLine) ++ "\n" := by
  obtain ⟨y, ys, hy⟩ : ∃ y ys, rustLines s = y :: ys := by
    cases h' : rustLines s with
    | nil => exact absurd h' h
    | cons a b => exact ⟨a, b, rfl⟩
  unfold indentBody
  rw [rustLines_cons_nl, hy, List.map_cons, List.map_cons, prefLine_empty]
  show (List.foldl _ "" (prefLine y :: ys.map prefLine)) ++ "\n" = _
  rw [List.foldl_cons, String.empty_append, foldl_sep_shift]
  rfl

/-! ### The debug rendering of a node ends in a closing angle bracket -/

theorem debugTree_data_ends (t : SvgTree) :
    ∃ w, (debugTree t).data = w ++ ['>'] := by
  refine ⟨("<" ++ t.tag ++ attrsString t.attrs t.viewbox ++ ">" ++
    indentBody (debugChildren t.content) ++ "</" ++ t.tag).data, ?_⟩
  rw [debugTree_eq, String.data_append]

theorem foldl_sep_data_ends (xs : List String) :
    ∀ init : String, (∃ w, init.data = w ++ ['>']) →
      (∀ x ∈ xs, ∃ w, x.data = w ++ ['>']) →
      ∃ w, (xs.foldl (fun a b => a ++ "\n" ++ b) init).data = w ++ ['>'] := by
  induction xs with
  | nil => exact fun init h _ => h
  | cons z zs ih =>
    intro init _ hall
    obtain ⟨w, hw⟩ := hall z (List.mem_cons_self z zs)
    refine ih (init ++ "\n" ++ z) ⟨(init ++ "\n").data ++ w, ?_⟩
      (fun x hx => hall x (List.mem_cons_of_mem z hx))
    rw [String.data_append, hw, List.append_assoc]

theorem reduceSep_debug_ends (c : SvgTree) (cs : List SvgTree) :
    ∃ w, (reduceSep "\n" ((c :: cs).map debugTree)).data = w ++ ['>'] := by
  rw [List.map_cons]
  exact foldl_sep_data_ends (cs.map debugTree) (debugTree c) (debugTree_data_ends c)
    (by
      intro x hx
      obtain ⟨t, _, rfl⟩ := List.mem_map.mp hx
      exact debugTree_data_ends t)

/-! ### Facts about `prefLine` and repeated indentation -/

theorem prefLine_of_blank {l : String} (h : isBlank l = true) :
    prefLine l = "" := by
  unfold prefLine
  rw [if_pos h]

theorem prefLine_of_not_blank {l : String} (h : isBlank l = false) :
    prefLine l = "  " ++ l := by
  unfold prefLine
  rw [if_neg (by simp [h])]

/-- `2 * k` spaces of indentation. -/
def spaces (m : Nat) : String :=
  ⟨List.replicate m ' '⟩

theorem isBlank_spaces_append (m : Nat) (l : String) :
    isBlank (spaces m ++ l) = isBlank l := by
  have hsp : rustIsWhitespace ' ' = true := by decide
  simp [isBlank, spaces, String.data_append, List.all_append, hsp]

theorem spaces_append_two (m : Nat) : spaces m ++ "  " = spaces (m + 2) := by
  apply String.ext
  rw [String.data_append]
  show List.replicate m ' ' ++ [' ', ' '] = List.replicate (m + 2) ' '
  rw [List.replicate_succ' (m + 1), List.replicate_succ' m, List.append_assoc]
  rfl

theorem two_spaces_eq : ("  " : String) = spaces 2 := rfl

theorem prefLine_iterate {l : String} (h : isBlank l = false) (k : Nat) :
    prefLine^[k] l = spaces (2 * k) ++ l := by
  induction k generalizing l with
  | zero =>
    apply String.ext
    rw [Function.iterate_zero_apply, String.data_append]
    rfl
  | succ k ih =>
    have hbl : isBlank ("  " ++ l) = false := by
      rw [two_spaces_eq, isBlank_spaces_append 2 l]
      exact h
    rw [Function.iterate_succ_apply, prefLine_of_not_blank h, ih hbl,
      ← String.append_assoc, spaces_append_two, Nat.mul_succ]

/-! ### `strLt` orders keys lexicographically -/

theorem charListLt_lex :
    ∀ {as bs : List Char}, charListLt as bs = true → List.Lex (· < ·) as bs := by
  intro as
  induction as with
  | nil =>
    intro bs h
    cases bs with
    | nil => simp [charListLt] at h
    | cons b bs => exact List.Lex.nil
  | cons a as ih =>
    intro bs h
    cases bs with
    | nil => simp [charListLt] at h
    | cons b bs =>
      by_cases hab : a < b
      · exact List.Lex.rel hab
      · by_cases hba : b < a
        · simp [charListLt, hab, hba] at h
        · have hEq : a = b := le_antisymm (le_of_not_lt hba) (le_of_not_lt hab)
          subst hEq
          refine List.Lex.cons (ih ?_)
          simpa [charListLt, hab, hba] using h

theorem strLt_lex {s t : String} (h : strLt s t = true) :
    List.Lex (· < ·) s.data t.data :=
  charListLt_lex h

/-! ### The claims -/

/-- Claim C1: in both rendering modes the attributes of the opening tag are
emitted in the order of `attrPairs` via the shared `attrsString`; under the
`BTreeMap` invariant (keys strictly `strLt`-increasing) the `attrs` keys are
in lexicographic order, and a present view box contributes a final
`("viewBox", vb)` pair after all `attrs` entries. -/
theorem claim1_attrs_lex_order_viewbox_last (n : SvgTree)
    (hs : List.Pairwise (fun p q : String × String => strLt p.1 q.1 = true) n.attrs) :
    List.Pairwise (fun a b : String => List.Lex (· < ·) a.data b.data)
        (n.attrs.map Prod.fst)
    ∧ (∀ vb, n.viewbox = some vb →
        attrPairs n.attrs n.viewbox = n.attrs ++ [("viewBox", vb)])
    ∧ (n.viewbox = none → attrPairs n.attrs n.viewbox = n.attrs)
    ∧ displayTree n =
        "<" ++ n.tag ++ attrsString n.attrs n.viewbox ++ ">" ++
          displayChildren n.content ++ "</" ++ n.tag ++ ">"
    ∧ debugTree n =
        "<" ++ n.tag ++ attrsString n.attrs n.viewbox ++ ">" ++
          indentBody (debugChildren n.content) ++ "</" ++ n.tag ++ ">" := by
  refine ⟨?_, ?_, ?_, displayTree_eq n, debugTree_eq n⟩
  · rw [List.pairwise_map]
    exact hs.imp (fun h => strLt_lex h)
  · intro vb hvb
    simp [attrPairs, hvb]
  · intro hvb
    simp [attrPairs, hvb]

/-- Witness for C1 at a concrete node with two sorted attributes and a
view box. -/
theorem claim1_attrs_order_instance :
    List.Pairwise (fun p q : String × String => strLt p.1 q.1 = true)
        [("a", "1"), ("b", "2")]
    ∧ attrPairs [("a", "1"), ("b", "2")] (some "0 0 1 1") =
        [("a", "1"), ("b", "2"), ("viewBox", "0 0 1 1")]
    ∧ displayTree
        (SvgTree.mk "g" (.Content "t") [("a", "1"), ("b", "2")] none
          (some "0 0 1 1")) =
        "<g a=\"1\" b=\"2\" viewBox=\"0 0 1 1\">t</g>" := by
  refine ⟨by decide, ?_, ?_⟩
  · exact ((claim1_attrs_lex_order_viewbox_last
      (SvgTree.mk "g" (.Content "t") [("a", "1"), ("b", "2")] none
        (some "0 0 1 1")) (by decide)).2.1 "0 0 1 1" rfl).trans (by decide)
  · exact ((claim1_attrs_lex_order_viewbox_last
      (SvgTree.mk "g" (.Content "t") [("a", "1"), ("b", "2")] none
        (some "0 0 1 1")) (by decide)).2.2.2.1).trans (by decide)

/-- Counterexample to C2 as literally stated ("the content indented by two
spaces on its own line"): whitespace-only content `" "` is erased to an
empty line instead of being indented; content `"def\r"` loses its trailing
carriage return; content `"a\nb"` is indented on each of its lines, not
embedded as one line; form-feed-only content is likewise blanked. In each
pair the first equation is what the program produces and the second shows
it differs from the claim's predicted string. -/
theorem claim2_literal_text_counterexample :
    (debugTree (SvgTree.mk "t" (.Content " ") [] none none) = "<t>\n\n</t>"
      ∧ debugTree (SvgTree.mk "t" (.Content " ") [] none none) ≠ "<t>\n   \n</t>")
    ∧ (debugTree (SvgTree.mk "t" (.Content "def\r") [] none none) =
          "<t>\n  def\n</t>"
      ∧ debugTree (SvgTree.mk "t" (.Content "def\r") [] none none) ≠
          "<t>\n  def\r\n</t>")
    ∧ (debugTree (SvgTree.mk "t" (.Content "a\nb") [] none none) =
          "<t>\n  a\n  b\n</t>"
      ∧ debugTree (SvgTree.mk "t" (.Content "a\nb") [] none none) ≠
          "<t>\n  a\nb\n</t>")
    ∧ debugTree (SvgTree.mk "t" (.Content "\x0C") [] none none) = "<t>\n\n</t>" :=
  ⟨⟨by decide, by decide⟩, ⟨by decide, by decide⟩, ⟨by decide, by decide⟩,
    by decide⟩

/-- Claim C2 as amended: for every node with literal-text content the
indented rendering is the opening tag, a newline, the content block, a
newline and the closing tag, where the content block is the list of lines
of the newline-terminated content (Rust `str::lines`, which drops a `\r`
directly before a line break), each non-blank line indented by two spaces
and each purely-whitespace line left empty, joined by newlines; the content
line is still produced — as an empty line — when the content is empty. -/
theorem claim2_text_block_amended (tag c : String)
    (attrs : List (String × String)) (i vb : Option String) :
    debugTree (SvgTree.mk tag (.Content c) attrs i vb) =
      "<" ++ tag ++ attrsString attrs vb ++ ">" ++
        ("\n" ++ reduceSep "\n" ((rustLines (c ++ "\n")).map prefLine) ++ "\n") ++
        "</" ++ tag ++ ">"
    ∧ (∀ line : String, isBlank line = false → prefLine line = "  " ++ line)
    ∧ (∀ line : String, isBlank line = true → prefLine line = "")
    ∧ debugTree (SvgTree.mk tag (.Content "") attrs i vb) =
      "<" ++ tag ++ attrsString attrs vb ++ ">" ++
        ("\n" ++ "" ++ "\n") ++ "</" ++ tag ++ ">" := by
  have hgen : ∀ d : String,
      debugTree (SvgTree.mk tag (.Content d) attrs i vb) =
        "<" ++ tag ++ attrsString attrs vb ++ ">" ++
          ("\n" ++ reduceSep "\n" ((rustLines (d ++ "\n")).map prefLine) ++ "\n") ++
          "</" ++ tag ++ ">" := by
    intro d
    have hbody : indentBody (debugChildren (SvgTreeChildren.Content d)) =
        "\n" ++ reduceSep "\n" ((rustLines (d ++ "\n")).map prefLine) ++ "\n" := by
      show indentBody ("\n" ++ d ++ "\n") = _
      rw [String.append_assoc, indentBody_cons_nl (rustLines_concat_nl_ne_nil d)]
    rw [debugTree_eq]
    simp only [SvgTree.tag, SvgTree.attrs, SvgTree.viewbox, SvgTree.content]
    rw [hbody]
  refine ⟨hgen c, fun _ h => prefLine_of_not_blank h,
    fun _ h => prefLine_of_blank h, ?_⟩
  rw [hgen "",
    show ("\n" ++ reduceSep "\n" ((rustLines ("" ++ "\n")).map prefLine) ++ "\n" :
        String) = "\n" ++ "" ++ "\n" by decide]

/-- Witness for the amended C2 at `leaf "abc" "def"`, with the non-blank
hypothesis of the per-line indentation part discharged concretely. -/
theorem claim2_text_block_amended_instance :
    debugTree (SvgTree.mk "abc" (.Content "def") [] none none) =
        "<abc>\n  def\n</abc>"
    ∧ isBlank "def" = false
    ∧ prefLine "def" = "  def" := by
  refine ⟨?_, by decide, ?_⟩
  · exact ((claim2_text_block_amended "abc" "def" [] none none).1).trans (by decide)
  · exact ((claim2_text_block_amended "abc" "def" [] none none).2.1 "def"
      (by decide)).trans (by decide)

/-- Claim C3: for a node with a non-empty child list the indented rendering
joins the children's indented renderings with newline separators, prefixes
each line of that block with two spaces (blank lines are left empty instead
of being padded), wraps the block in a leading and a trailing newline, and
two-space prefixing composes so that `k` nested applications indent a
non-blank line by `2 * k` spaces. -/
theorem claim3_children_indent_block (tag : String)
    (attrs : List (String × String)) (i vb : Option String)
    (c : SvgTree) (cs : List SvgTree) :
    debugTree (SvgTree.mk tag (.Children (c :: cs)) attrs i vb) =
      "<" ++ tag ++ attrsString attrs vb ++ ">" ++
        ("\n" ++
          reduceSep "\n"
            ((rustLines (reduceSep "\n" ((c :: cs).map debugTree))).map prefLine) ++
          "\n") ++
        "</" ++ tag ++ ">"
    ∧ (∀ line : String, isBlank line = false → prefLine line = "  " ++ line)
    ∧ (∀ line : String, isBlank line = true → prefLine line = "")
    ∧ (∀ (k : Nat) (line : String), isBlank line = false →
        prefLine^[k] line = spaces (2 * k) ++ line) := by
  refine ⟨?_, fun _ h => prefLine_of_not_blank h, fun _ h => prefLine_of_blank h,
    fun k _ h => prefLine_iterate h k⟩
  obtain ⟨w, hw⟩ := reduceSep_debug_ends c cs
  have hgl : (reduceSep "\n" ((c :: cs).map debugTree)).data.getLast? = some '>' := by
    rw [hw]
    exact List.getLast?_concat _
  have hne : rustLines (reduceSep "\n" ((c :: cs).map debugTree)) ≠ [] :=
    rustLines_ne_nil hgl (by decide)
  have hIB : indentBody ("\n" ++ reduceSep "\n" ((c :: cs).map debugTree) ++ "\n") =
      "\n" ++
        reduceSep "\n"
          ((rustLines (reduceSep "\n" ((c :: cs).map debugTree))).map prefLine) ++
        "\n" := by
    rw [String.append_assoc,
      indentBody_cons_nl (by rw [rustLines_concat_nl hgl (by decide) (by decide)]; exact hne),
      rustLines_concat_nl hgl (by decide) (by decide)]
  rw [debugTree_eq]
  simp only [SvgTree.tag, SvgTree.attrs, SvgTree.viewbox, SvgTree.content]
  rw [debugChildren_children, hIB]

/-- Witness for C3: a root with two leaves, with every definition
evaluated, and a sample hypothesis discharge for the iterated-indent part. -/
theorem claim3_children_indent_instance :
    debugTree
        (SvgTree.mk "svg" (.Children [leaf "abc" "def", leaf "hij" "lmnop"]) []
          none none) =
      "<svg>\n  <abc>\n    def\n  </abc>\n  <hij>\n    lmnop\n  </hij>\n</svg>"
    ∧ isBlank "def" = false ∧ prefLine^[2] "def" = "    def" := by
  refine ⟨?_, by decide, ?_⟩
  · exact ((claim3_children_indent_block "svg" [] none none (leaf "abc" "def")
      [leaf "hij" "lmnop"]).1).trans (by decide)
  · exact ((claim3_children_indent_block "svg" [] none none (leaf "abc" "def")
      [leaf "hij" "lmnop"]).2.2.2 2 "def" (by decide)).trans (by decide)

/-- Claim C4: a node whose content is an empty child list renders
identically in both modes, as the single-line `<TAG ATTRS></TAG>`. -/
theorem claim4_empty_children_collapse (n : SvgTree)
    (h : n.content = SvgTreeChildren.Children []) :
    debugTree n = displayTree n
    ∧ displayTree n =
        "<" ++ n.tag ++ attrsString n.attrs n.viewbox ++ ">" ++ "</" ++
          n.tag ++ ">" := by
  have hd : displayChildren n.content = "" := by
    rw [h]
    rfl
  have hb : indentBody (debugChildren n.content) = "" := by
    rw [h]
    rfl
  constructor
  · rw [debugTree_eq, displayTree_eq, hd, hb]
  · rw [displayTree_eq, hd, String.append_empty]

/-- Witness for C4 at `root "0 0 0 0"`, whose content is an empty child
list. -/
theorem claim4_empty_children_instance :
    (root "0 0 0 0").content = SvgTreeChildren.Children []
    ∧ debugTree (root "0 0 0 0") = displayTree (root "0 0 0 0") :=
  ⟨rfl, (claim4_empty_children_collapse (root "0 0 0 0") rfl).1⟩

/-- Claim C5: with the default `ViewBox` rendering as `"0 0 0 0"`, the
compact output of `root()` is the exact documented string. -/
theorem claim5_svgRoot_compact :
    displayTree (root "0 0 0 0") =
      "<svg preserveAspectRatio=\"xMidYMid meet\" xmlns=\"http://www.w3.org/2000/svg\" viewBox=\"0 0 0 0\"></svg>" := by
  decide

/-- Claim C6: `leaf "abc" "def"` renders compactly as `<abc>def</abc>` (no
space before `>` without attributes and view box) and indented as
`<abc>`, newline, two spaces, `def`, newline, `</abc>`. -/
theorem claim6_leaf_outputs :
    displayTree (leaf "abc" "def") = "<abc>def</abc>"
    ∧ debugTree (leaf "abc" "def") = "<abc>\n  def\n</abc>" :=
  ⟨by decide, by decide⟩

/-- Claim C7: the compact body is the literal content string for a `Content`
node, and the separator-free concatenation of the children's compact
renderings, in child order, for a `Children` node. -/
theorem claim7_compact_body (n : SvgTree) :
    displayTree n =
      "<" ++ n.tag ++ attrsString n.attrs n.viewbox ++ ">" ++
        (match n.content with
         | SvgTreeChildren.Content s => s
         | SvgTreeChildren.Children cs => String.join (cs.map displayTree)) ++
        "</" ++ n.tag ++ ">" := by
  have hbody : displayChildren n.content =
      (match n.content with
       | SvgTreeChildren.Content s => s
       | SvgTreeChildren.Children cs => String.join (cs.map displayTree)) := by
    cases n.content with
    | Content s => rfl
    | Children cs => exact displayChildren_children cs
  rw [displayTree_eq, hbody]

/-- Claim C8: `add` appends the child at the end of a `Children` node's
list, leaving tag, attrs, id and viewbox unchanged, and returns a `Content`
node entirely unchanged, so both renderings of a `Content` node are
unaffected by `add`. -/
theorem claim8_add_semantics (n child : SvgTree) :
    (∀ cs, n.content = SvgTreeChildren.Children cs →
        add n child =
          SvgTree.mk n.tag (SvgTreeChildren.Children (cs ++ [child])) n.attrs
            n.id n.viewbox)
    ∧ (∀ s, n.content = SvgTreeChildren.Content s → add n child = n)
    ∧ (∀ s, n.content = SvgTreeChildren.Content s →
        displayTree (add n child) = displayTree n
        ∧ debugTree (add n child) = debugTree n) := by
  obtain ⟨tag, content, attrs, i, vb⟩ := n
  cases content with
  | Content s =>
    refine ⟨?_, ?_, ?_⟩
    · intro cs h
      exact absurd h (by simp [SvgTree.content])
    · intro s' _
      rfl
    · intro s' _
      exact ⟨rfl, rfl⟩
  | Children cs₀ =>
    refine ⟨?_, ?_, ?_⟩
    · intro cs h
      have hcs : cs₀ = cs := by
        simpa [SvgTree.content] using h
      subst hcs
      rfl
    · intro s h
      exact absurd h (by simp [SvgTree.content])
    · intro s h
      exact absurd h (by simp [SvgTree.content])

/-- Witness for C8: appending to a text leaf is a no-op for the value and
for the compact rendering. -/
theorem claim8_add_noop_instance :
    (leaf "abc" "def").content = SvgTreeChildren.Content "def"
    ∧ add (leaf "abc" "def") (leaf "b" "y") = leaf "abc" "def"
    ∧ displayTree (add (leaf "abc" "def") (leaf "b" "y")) =
        displayTree (leaf "abc" "def") :=
  ⟨rfl, (claim8_add_semantics (leaf "abc" "def") (leaf "b" "y")).2.1 "def" rfl,
    ((claim8_add_semantics (leaf "abc" "def") (leaf "b" "y")).2.2 "def" rfl).1⟩

/-- Claim C9: neither rendering mode depends on the `id` field: two nodes
that agree on tag, content, attrs and viewbox render identically in both
modes whatever their ids. -/
theorem claim9_id_not_rendered (tag : String) (content : SvgTreeChildren)
    (attrs : List (String × String)) (vb : Option String)
    (i₁ i₂ : Option String) :
    displayTree (SvgTree.mk tag content attrs i₁ vb) =
      displayTree (SvgTree.mk tag content attrs i₂ vb)
    ∧ debugTree (SvgTree.mk tag content attrs i₁ vb) =
      debugTree (SvgTree.mk tag content attrs i₂ vb) :=
  ⟨rfl, rfl⟩

/-- Claim C10: when the attrs map itself contains key `"viewBox"` and the
viewbox field is present, the injected pair is appended anyway: the render
list keeps the attrs entry in place and ends with the injected pair, so the
name `viewBox` occurs at least twice, in both rendering modes. -/
theorem claim10_viewbox_not_dedup (n : SvgTree) (v vbs : String)
    (hmem : ("viewBox", v) ∈ n.attrs) (hvb : n.viewbox = some vbs) :
    attrPairs n.attrs n.viewbox = n.attrs ++ [("viewBox", vbs)]
    ∧ 2 ≤ ((attrPairs n.attrs n.viewbox).map Prod.fst).count "viewBox"
    ∧ (attrPairs n.attrs n.viewbox).getLast? = some ("viewBox", vbs)
    ∧ displayTree n =
        "<" ++ n.tag ++ attrsString n.attrs n.viewbox ++ ">" ++
          displayChildren n.content ++ "</" ++ n.tag ++ ">"
    ∧ debugTree n =
        "<" ++ n.tag ++ attrsString n.attrs n.viewbox ++ ">" ++
          indentBody (debugChildren n.content) ++ "</" ++ n.tag ++ ">" := by
  have hap : attrPairs n.attrs n.viewbox = n.attrs ++ [("viewBox", vbs)] := by
    simp [attrPairs, hvb]
  refine ⟨hap, ?_, ?_, displayTree_eq n, debugTree_eq n⟩
  · rw [hap, List.map_append, List.count_append]
    have hc1 : 0 < List.count "viewBox" (n.attrs.map Prod.fst) :=
      List.count_pos_iff.mpr (List.mem_map_of_mem Prod.fst hmem)
    have hc2 : List.count "viewBox" ([("viewBox", vbs)].map Prod.fst) = 1 := by
      simp
    omega
  · rw [hap]
    exact List.getLast?_concat _

/-- Witness for C10 at a node whose attrs contain the key `"viewBox"` and
whose viewbox field is set. -/
theorem claim10_viewbox_not_dedup_instance :
    ("viewBox", "1 2 3 4") ∈
      (SvgTree.mk "g" (.Content "t") [("viewBox", "1 2 3 4")] none
        (some "5 6 7 8")).attrs
    ∧ attrPairs [("viewBox", "1 2 3 4")] (some "5 6 7 8") =
        [("viewBox", "1 2 3 4"), ("viewBox", "5 6 7 8")]
    ∧ displayTree
        (SvgTree.mk "g" (.Content "t") [("viewBox", "1 2 3 4")] none
          (some "5 6 7 8")) =
        "<g viewBox=\"1 2 3 4\" viewBox=\"5 6 7 8\">t</g>" := by
  refine ⟨by decide, ?_, ?_⟩
  · exact ((claim10_viewbox_not_dedup
      (SvgTree.mk "g" (.Content "t") [("viewBox", "1 2 3 4")] none
        (some "5 6 7 8")) "1 2 3 4" "5 6 7 8" (by decide) rfl).1).trans (by decide)
  · exact ((claim10_viewbox_not_dedup
      (SvgTree.mk "g" (.Content "t") [("viewBox", "1 2 3 4")] none
        (some "5 6 7 8")) "1 2 3 4" "5 6 7 8" (by decide) rfl).2.2.2.1).trans
      (by decide)

end GeoSvg
